import Mathlib

/-!
Shallow embedding of `src/simulation/statemachine.py` (class `StateMachine`).

States are strings; the `Uninitialized` sentinel (`None` in the source) is the
`Option.none` of `Option String`.  The nested dicts `_handler` and `_transition`
are embedded as association lists whose update operation (`listUpd`) mirrors
Python dict assignment: an existing key keeps its position and gets the new
value, a fresh key is appended.  Iteration order of `_transition[state]` in
`doProcess` is the association-list order.

The externally owned target object is a partial map from attribute names to
members; a member records its truthiness, callability, and its behaviour when
called with one argument (handlers) or no argument (guards).  Handler and guard
invocations are observed through an event trace, and Python exceptions
(`KeyError` from dict lookups, `AttributeError` from two-argument `getattr`,
`TypeError` from calling a non-callable, and any exception raised inside a
user handler or guard) are reified in the `Fault` type.
-/

set_option autoImplicit false

namespace LewisFSM

/-- Kind of state event, corresponding to the keys of the `_prefix` dict. -/
inductive EvKind where
  | on_entry
  | in_state
  | on_exit
  deriving DecidableEq, Repr

/-- Observable actions of one `doProcess` cycle.
`raised k s d` records that `_raise_event(k, d)` was entered with current state
`s` and completed its handler lookup; `called k s d` records that an actual
handler function was invoked; `guardEval t` records that the condition of the
transition towards `t` was evaluated (the body of `_check_transition`). -/
inductive Ev where
  | raised (k : EvKind) (s : Option String) (d : Int)
  | called (k : EvKind) (s : Option String) (d : Int)
  | guardEval (t : String)
  deriving DecidableEq, Repr

/-- Python exceptions that can escape `doProcess`. -/
inductive Fault where
  | keyError
  | attributeError
  | typeError
  | userFault
  deriving DecidableEq, Repr

/-- Outcome of calling a handler: normal return, or an exception from its body. -/
inductive COut where
  | ret
  | exn
  deriving DecidableEq, Repr

/-- Outcome of calling a guard: a boolean (truthiness of the returned value),
or an exception from its body. -/
inductive GOut where
  | ret (b : Bool)
  | exn
  deriving DecidableEq, Repr

/-- A member of the target object, as observed by the state machine: its
truthiness, whether it is callable, and its behaviour when called with one
argument (`hbeh`, used for handlers) or with no argument (`gbeh`, guards). -/
structure Member where
  truthy : Bool
  callable : Bool
  hbeh : Int → COut
  gbeh : GOut

/-- The externally owned target: `members n` is `getattr(target, n)` when the
attribute exists, `none` when it does not. -/
structure Target where
  members : String → Option Member

/-- A target with no attributes at all. -/
def emptyTarget : Target := ⟨fun _ => Option.none⟩

/-- A handler binding stored in `_handler[state][event]`: explicit `None`,
a string name to be resolved on the target at each invocation, or a direct
callable (represented by its behaviour). -/
inductive HBinding where
  | hnone
  | hname (n : String)
  | hfunc (f : Int → COut)

/-- The three handler bindings of one state (`_handler[state]`). -/
structure Handlers where
  on_entry : HBinding
  in_state : HBinding
  on_exit : HBinding

/-- Select a state's binding for an event kind, as `_handler[state][event]`. -/
def Handlers.get (h : Handlers) (ev : EvKind) : HBinding :=
  match ev with
  | EvKind.on_entry => h.on_entry
  | EvKind.in_state => h.in_state
  | EvKind.on_exit => h.on_exit

/-- A transition condition stored in `_transition[from][to]`: a direct callable
(kept as is by `_add_transition`), or a name already carrying the `_check_`
prefix (applied by `_add_transition`). -/
inductive CBinding where
  | func (g : GOut)
  | name (n : String)
  deriving DecidableEq, Repr

/-- A condition as it appears in a configuration triple, before
`_add_transition` prefixes names. -/
inductive CfgCheck where
  | fnc (g : GOut)
  | nam (s : String)
  deriving DecidableEq, Repr

/-- A configuration dict: the optional `initial` key and the `transitions`
list of (from, to, condition) triples (`cfg.get('transitions', [])`). -/
structure Cfg where
  initial : Option String
  transitions : List (String × String × CfgCheck)

/-- Association-list lookup, mirroring Python dict indexing (`d[k]`),
returning `none` where Python raises `KeyError`. -/
def findA {α β : Type} [DecidableEq α] : List (α × β) → α → Option β
  | [], _ => Option.none
  | (k, v) :: rest, k' => if k' = k then some v else findA rest k'

/-- Association-list update, mirroring Python dict assignment (`d[k] = v`):
an existing key keeps its position, a fresh key is appended. -/
def listUpd {α β : Type} [DecidableEq α] : List (α × β) → α → β → List (α × β)
  | [], k, v => [(k, v)]
  | (k0, v0) :: rest, k, v =>
    if k = k0 then (k0, v) :: rest else (k0, v0) :: listUpd rest k v

/-- The machine instance: fields `_target`, `_initial`, `_state`, `_handler`,
`_transition` of class `StateMachine`. -/
structure StateMachine where
  target : Target
  initial : Option String
  state : Option String
  handler : List (Option String × Handlers)
  transition : List (String × List (String × CBinding))

/-- Nested lookup `_transition[f][t]`, `none` when either key is absent. -/
def lookup2 (tr : List (String × List (String × CBinding))) (f t : String) :
    Option CBinding :=
  match findA tr f with
  | Option.none => Option.none
  | some inner => findA inner t

/-- The handler set `_add_state(None, None, None, None)` installs for the
`None` sentinel state. -/
def sentinelHandlers : Handlers :=
  ⟨HBinding.hnone, HBinding.hnone, HBinding.hnone⟩

/-- The default name-derived handler set `_add_state(state)` installs:
`'_on_entry_' + state`, `'_in_state_' + state`, `'_on_exit_' + state`. -/
def defaultHandlers (s : String) : Handlers :=
  ⟨HBinding.hname ("_on_entry_" ++ s), HBinding.hname ("_in_state_" ++ s),
    HBinding.hname ("_on_exit_" ++ s)⟩

/-- Register a state with default handlers (`_add_state(state)` with one
positional argument). -/
def addState (m : StateMachine) (s : String) : StateMachine :=
  { m with handler := listUpd m.handler (some s) (defaultHandlers s) }

/-- The guard stored by `_add_transition`: a callable is kept, a name gets the
`'_check_'` prefix. -/
def mkCheck : CfgCheck → CBinding
  | CfgCheck.fnc g => CBinding.func g
  | CfgCheck.nam s => CBinding.name ("_check_" ++ s)

/-- The body of `_add_transition(from_state, to_state, transition_check)`:
create the inner dict for `from_state` when absent, then assign
`_transition[from_state][to_state]`. -/
def addTransition (m : StateMachine) (f t : String) (c : CfgCheck) :
    StateMachine :=
  let inner := match findA m.transition f with
    | some l => l
    | Option.none => []
  { m with transition := listUpd m.transition f (listUpd inner t (mkCheck c)) }

/-- The per-state check in `extend`'s loop: `if state not in self._handler:
self._add_state(state)`. -/
def ensureState (m : StateMachine) (s : String) : StateMachine :=
  match findA m.handler (some s) with
  | some _ => m
  | Option.none => addState m s

/-- One iteration of the loop in `extend`: register `from_state` and
`to_state` when unknown, then add the transition. -/
def stepT (m : StateMachine) (f t : String) (c : CfgCheck) : StateMachine :=
  addTransition (ensureState (ensureState m f) t) f t c

/-- The loop in `extend` over `cfg.get('transitions', [])`. -/
def applyTransitions (m : StateMachine) :
    List (String × String × CfgCheck) → StateMachine
  | [] => m
  | (f, t, c) :: rest => applyTransitions (stepT m f t c) rest

/-- The head of `extend`: `if 'initial' in cfg: self._initial = cfg['initial']`. -/
def setInitial (m : StateMachine) (cfg : Cfg) : StateMachine :=
  match cfg.initial with
  | some i => { m with initial := some i }
  | Option.none => m

/-- The method `extend(cfg)`. -/
def extend (m : StateMachine) (cfg : Cfg) : StateMachine :=
  applyTransitions (setInitial m cfg) cfg.transitions

/-- The machine state established by `__init__` before `extend(cfg)` runs:
empty dicts except for the `None` sentinel state added by
`_add_state(None, None, None, None)`, and the target installed. -/
def initMachine (t : Target) : StateMachine :=
  { target := t, initial := Option.none, state := Option.none,
    handler := [(Option.none, sentinelHandlers)], transition := [] }

/-- The constructor `StateMachine(target, cfg)`. -/
def mkMachine (t : Target) (cfg : Cfg) : StateMachine :=
  extend (initMachine t) cfg

/-- The method `reset()`: `self._state = None`. -/
def reset (m : StateMachine) : StateMachine :=
  { m with state := Option.none }

/-- The `target` property setter. -/
def withTarget (m : StateMachine) (t : Target) : StateMachine :=
  { m with target := t }

/-- The method `_raise_event(event, dt)`.  The dict lookup
`self._handler[self._state][event]` can raise `KeyError`; a string binding is
resolved with `getattr(self._target, handler, None)` and the event degrades to
a no-op when the binding is falsy, the attribute is missing, or the resolved
member is falsy or not callable; a callable is invoked with `dt` and may raise. -/
def raiseEvent (m : StateMachine) (ev : EvKind) (dt : Int) :
    List Ev × Option Fault :=
  match findA m.handler m.state with
  | Option.none => ([], some Fault.keyError)
  | some hs =>
    match hs.get ev with
    | HBinding.hnone => ([Ev.raised ev m.state dt], Option.none)
    | HBinding.hname n =>
      if n = "" then ([Ev.raised ev m.state dt], Option.none)
      else
        match m.target.members n with
        | Option.none => ([Ev.raised ev m.state dt], Option.none)
        | some mem =>
          if mem.truthy && mem.callable then
            match mem.hbeh dt with
            | COut.ret =>
              ([Ev.raised ev m.state dt, Ev.called ev m.state dt], Option.none)
            | COut.exn => ([Ev.raised ev m.state dt], some Fault.userFault)
          else ([Ev.raised ev m.state dt], Option.none)
    | HBinding.hfunc f =>
      match f dt with
      | COut.ret =>
        ([Ev.raised ev m.state dt, Ev.called ev m.state dt], Option.none)
      | COut.exn => ([Ev.raised ev m.state dt], some Fault.userFault)

/-- The method `_check_transition(check_func)`: a non-callable binding is
resolved with two-argument `getattr` (raising `AttributeError` when the
attribute is missing), then called with no arguments (raising `TypeError`
when the resolved member is not callable). -/
def checkTransition (t : Target) (cb : CBinding) : Except Fault Bool :=
  match cb with
  | CBinding.func g =>
    match g with
    | GOut.ret b => Except.ok b
    | GOut.exn => Except.error Fault.userFault
  | CBinding.name n =>
    match t.members n with
    | Option.none => Except.error Fault.attributeError
    | some mem =>
      if mem.callable then
        match mem.gbeh with
        | GOut.ret b => Except.ok b
        | GOut.exn => Except.error Fault.userFault
      else Except.error Fault.typeError

/-- The `for target_state, check_func in self._transition[...].iteritems()`
loop of `doProcess`, including the `break` after a fired transition.  Returns
the machine (state possibly updated), the trace of the loop, and the first
fault if one escaped. -/
def transLoop (m : StateMachine) (dt : Int) :
    List (String × CBinding) → StateMachine × List Ev × Option Fault
  | [] => (m, [], Option.none)
  | (ts, cb) :: rest =>
    match checkTransition m.target cb with
    | Except.error f => (m, [Ev.guardEval ts], some f)
    | Except.ok false =>
      match transLoop m dt rest with
      | (m2, tr, f) => (m2, Ev.guardEval ts :: tr, f)
    | Except.ok true =>
      let r1 := raiseEvent m EvKind.on_exit dt
      match r1.2 with
      | some f => (m, Ev.guardEval ts :: r1.1, some f)
      | Option.none =>
        let m2 := { m with state := some ts }
        let r2 := raiseEvent m2 EvKind.on_entry dt
        (m2, Ev.guardEval ts :: (r1.1 ++ r2.1), r2.2)

/-- Result of one `doProcess` call: the machine afterwards, the event trace,
and the fault that escaped, if any (`none` means normal return). -/
structure PResult where
  machine : StateMachine
  trace : List Ev
  fault : Option Fault

/-- The method `doProcess(dt)`. -/
def doProcess (m : StateMachine) (dt : Int) : PResult :=
  match m.state with
  | Option.none =>
    let m1 := { m with state := m.initial }
    let r1 := raiseEvent m1 EvKind.on_entry 0
    match r1.2 with
    | some f => ⟨m1, r1.1, some f⟩
    | Option.none =>
      let r2 := raiseEvent m1 EvKind.in_state 0
      ⟨m1, r1.1 ++ r2.1, r2.2⟩
  | some s =>
    match findA m.transition s with
    | Option.none => ⟨m, [], some Fault.keyError⟩
    | some outs =>
      let l := transLoop m dt outs
      match l.2.2 with
      | some f => ⟨l.1, l.2.1, some f⟩
      | Option.none =>
        let r2 := raiseEvent l.1 EvKind.in_state dt
        ⟨l.1, l.2.1 ++ r2.1, r2.2⟩

/-- The `raised` entries of a trace, as (kind, state, time-delta) triples. -/
def raisedOf (l : List Ev) : List (EvKind × Option String × Int) :=
  l.filterMap (fun e =>
    match e with
    | Ev.raised k s d => some (k, s, d)
    | _ => Option.none)

/-- The guard evaluations of a trace, in order, by target state. -/
def guardsOf (l : List Ev) : List String :=
  l.filterMap (fun e =>
    match e with
    | Ev.guardEval t => some t
    | _ => Option.none)

/-- Whether raising a given binding on a given target with a given time-delta
runs to completion without a user fault (it always does unless the binding
resolves to a callable whose body raises). -/
def noFaultH (t : Target) (hb : HBinding) (dt : Int) : Bool :=
  match hb with
  | HBinding.hnone => true
  | HBinding.hname n =>
    if n = "" then true
    else
      match t.members n with
      | Option.none => true
      | some mem =>
        if mem.truthy && mem.callable then
          match mem.hbeh dt with
          | COut.ret => true
          | COut.exn => false
        else true
  | HBinding.hfunc f =>
    match f dt with
    | COut.ret => true
    | COut.exn => false

/-- Expected observable outcome of raising an event whose binding is the name
`n` on target `t`: what trace suffix and fault the dispatch produces. -/
def namedDispatch (t : Target) (n : String) (dt : Int) (st : Option String)
    (ev : EvKind) : List Ev × Option Fault :=
  match t.members n with
  | Option.none => ([Ev.raised ev st dt], Option.none)
  | some mem =>
    if mem.truthy && mem.callable then
      match mem.hbeh dt with
      | COut.ret => ([Ev.raised ev st dt, Ev.called ev st dt], Option.none)
      | COut.exn => ([Ev.raised ev st dt], some Fault.userFault)
    else ([Ev.raised ev st dt], Option.none)

/-- Expected outcome of evaluating a transition guard stored as the name `g`
against target `t`: what `_check_transition` produces after its two-argument
`getattr` and the call of the resolved member. -/
def namedGuard (t : Target) (g : String) : Except Fault Bool :=
  match t.members g with
  | Option.none => Except.error Fault.attributeError
  | some mem =>
    if mem.callable then
      match mem.gbeh with
      | GOut.ret b => Except.ok b
      | GOut.exn => Except.error Fault.userFault
    else Except.error Fault.typeError

/-! Concrete targets and machines used to exercise the definitions. -/

/-- A truthy callable member that returns normally as a handler and returns
`True` as a guard. -/
def memTrue : Member := ⟨true, true, fun _ => COut.ret, GOut.ret true⟩

/-- A truthy callable member that returns normally as a handler and returns
`False` as a guard. -/
def memFalse : Member := ⟨true, true, fun _ => COut.ret, GOut.ret false⟩

/-- A truthy callable member whose body raises when invoked. -/
def memRaise : Member := ⟨true, true, fun _ => COut.exn, GOut.exn⟩

/-- A target whose only attribute is a guard named `c` returning `False`. -/
def tgtGuardFalse : Target :=
  ⟨fun n => if n = "c" then some memFalse else Option.none⟩

/-- A target whose only attribute is a guard named `c` returning `True`. -/
def tgtGuardTrue : Target :=
  ⟨fun n => if n = "c" then some memTrue else Option.none⟩

/-- A target whose only attribute is a raising `_on_entry_B` handler. -/
def tgtRaiseEntryB : Target :=
  ⟨fun n => if n = "_on_entry_B" then some memRaise else Option.none⟩

/-- A target whose only attribute is a well-behaved handler named `f`. -/
def tgtF : Target :=
  ⟨fun n => if n = "f" then some memTrue else Option.none⟩

/-- A fresh machine whose initial state `A` is registered (it appears in a
transition). -/
def mFirstCycle : StateMachine :=
  mkMachine emptyTarget ⟨some "A", [("A", "A", CfgCheck.fnc (GOut.ret false))]⟩

/-- A fresh machine whose initial state `A` appears in no transition, so it
has no `_handler` entry. -/
def mNoInitialEntry : StateMachine := mkMachine emptyTarget ⟨some "A", []⟩

/-- A machine driven past its first cycle into state `I`, which has three
outgoing transitions with guards false, true, true in insertion order. -/
def mTieBreak : StateMachine :=
  (doProcess (mkMachine emptyTarget
    ⟨some "I", [("I", "A", CfgCheck.fnc (GOut.ret false)),
      ("I", "B", CfgCheck.fnc (GOut.ret true)),
      ("I", "C", CfgCheck.fnc (GOut.ret true))]⟩) 0).machine

/-- A fresh machine used to watch the first cycle ignore the `dt` argument. -/
def mDtFirst : StateMachine :=
  mkMachine emptyTarget ⟨some "A", [("A", "A", CfgCheck.fnc (GOut.ret false))]⟩

/-- A machine driven past its first cycle, sitting in state `A` with a single
never-firing self loop. -/
def mDtLoop : StateMachine :=
  (doProcess (mkMachine emptyTarget
    ⟨some "A", [("A", "A", CfgCheck.fnc (GOut.ret false))]⟩) 0).machine

/-- A machine sitting in state `A` whose only outgoing guard is the name `g`,
which resolves to `_check_g`, absent from the empty target. -/
def mBadGuard : StateMachine :=
  (doProcess (mkMachine emptyTarget
    ⟨some "A", [("A", "B", CfgCheck.nam "g")]⟩) 0).machine

/-- A machine sitting in state `A` with an always-true transition to `B`,
whose target raises inside `_on_entry_B`. -/
def mEntryFault : StateMachine :=
  (doProcess (mkMachine tgtRaiseEntryB
    ⟨some "A", [("A", "B", CfgCheck.fnc (GOut.ret true))]⟩) 0).machine

/-- A machine with one configured transition, used as the base of an
`extend` call. -/
def mExtendBase : StateMachine :=
  mkMachine emptyTarget ⟨some "A", [("A", "B", CfgCheck.nam "g")]⟩

/-- An amendment configuration: no `initial` key, one new pair and one
redefinition of the existing `A`→`B` pair. -/
def cfgExtendMore : Cfg :=
  ⟨Option.none, [("A", "C", CfgCheck.fnc (GOut.ret true)),
    ("A", "B", CfgCheck.nam "h")]⟩

/-- A machine sitting in state `S` with no outgoing transitions and an
`in_state` handler bound to the name `f`. -/
def mNamedInState : StateMachine :=
  ⟨emptyTarget, some "S", some "S",
    [(Option.none, sentinelHandlers),
      (some "S", ⟨HBinding.hnone, HBinding.hname "f", HBinding.hnone⟩)],
    [("S", [])]⟩

/-- A machine sitting in state `G` whose only outgoing transition, towards
`H`, carries the guard stored as the name `c`; all handlers of `G` are
explicitly disabled. -/
def mNamedGuard : StateMachine :=
  ⟨emptyTarget, some "G", some "G",
    [(Option.none, sentinelHandlers),
      (some "G", ⟨HBinding.hnone, HBinding.hnone, HBinding.hnone⟩)],
    [("G", [("H", CBinding.name "c")])]⟩

/-- A machine sitting in state `T` whose `in_state` handler is bound to the
name `g`, absent from the empty target. -/
def mMissingHandler : StateMachine :=
  ⟨emptyTarget, some "T", some "T",
    [(Option.none, sentinelHandlers),
      (some "T", ⟨HBinding.hnone, HBinding.hname "g", HBinding.hnone⟩)],
    [("T", [])]⟩

/-- A machine whose initial state `B` appears only as a to-state; its first
cycle succeeds and leaves it in `B`, which has no `_transition` entry. -/
def mSinkState : StateMachine :=
  (doProcess (mkMachine emptyTarget
    ⟨some "B", [("A", "B", CfgCheck.fnc (GOut.ret true))]⟩) 0).machine

/-! Basic lemmas about association-list lookup and update. -/

theorem findA_listUpd_self {α β : Type} [DecidableEq α]
    (l : List (α × β)) (k : α) (v : β) : findA (listUpd l k v) k = some v := by
  induction l with
  | nil => simp [listUpd, findA]
  | cons hd tl ih =>
    rcases hd with ⟨k0, v0⟩
    by_cases h : k = k0
    · simp [listUpd, findA, h]
    · simp [listUpd, findA, h, ih]

theorem findA_listUpd_ne {α β : Type} [DecidableEq α]
    (l : List (α × β)) (k k' : α) (v : β) (h : k' ≠ k) :
    findA (listUpd l k v) k' = findA l k' := by
  induction l with
  | nil => simp [listUpd, findA, h]
  | cons hd tl ih =>
    rcases hd with ⟨k0, v0⟩
    by_cases hk : k = k0
    · subst hk
      simp [listUpd, findA, h]
    · by_cases hk' : k' = k0
      · simp [listUpd, findA, hk, hk']
      · simp [listUpd, findA, hk, hk', ih]

/-! Shape lemmas about `raiseEvent`. -/

theorem raiseEvent_shape (m : StateMachine) (ev : EvKind) (dt : Int) :
    (raiseEvent m ev dt = ([], some Fault.keyError) ∧
      findA m.handler m.state = Option.none) ∨
    raiseEvent m ev dt = ([Ev.raised ev m.state dt], Option.none) ∨
    raiseEvent m ev dt =
      ([Ev.raised ev m.state dt, Ev.called ev m.state dt], Option.none) ∨
    raiseEvent m ev dt = ([Ev.raised ev m.state dt], some Fault.userFault) := by
  unfold raiseEvent
  repeat' split
  all_goals simp_all

theorem raiseEvent_keyError (m : StateMachine) (ev : EvKind) (dt : Int)
    (h : findA m.handler m.state = Option.none) :
    raiseEvent m ev dt = ([], some Fault.keyError) := by
  unfold raiseEvent
  rw [h]

theorem raiseEvent_ok (m : StateMachine) (ev : EvKind) (dt : Int) (hs : Handlers)
    (h1 : findA m.handler m.state = some hs)
    (h2 : noFaultH m.target (hs.get ev) dt = true) :
    raiseEvent m ev dt = ([Ev.raised ev m.state dt], Option.none) ∨
    raiseEvent m ev dt =
      ([Ev.raised ev m.state dt, Ev.called ev m.state dt], Option.none) := by
  unfold raiseEvent
  rw [h1]
  unfold noFaultH at h2
  repeat' split at h2
  all_goals simp_all

theorem raiseEvent_fault (m : StateMachine) (ev : EvKind) (dt : Int) (hs : Handlers)
    (h1 : findA m.handler m.state = some hs)
    (h2 : noFaultH m.target (hs.get ev) dt = false) :
    raiseEvent m ev dt = ([Ev.raised ev m.state dt], some Fault.userFault) := by
  unfold raiseEvent
  rw [h1]
  unfold noFaultH at h2
  repeat' split at h2
  all_goals simp_all

theorem raiseEvent_none_raisedOf (m : StateMachine) (ev : EvKind) (dt : Int)
    (h : (raiseEvent m ev dt).2 = Option.none) :
    raisedOf (raiseEvent m ev dt).1 = [(ev, m.state, dt)] := by
  rcases raiseEvent_shape m ev dt with ⟨h1, _⟩ | h1 | h1 | h1 <;>
    rw [h1] at h ⊢ <;> simp_all [raisedOf]

theorem guardsOf_raiseEvent (m : StateMachine) (ev : EvKind) (dt : Int) :
    guardsOf (raiseEvent m ev dt).1 = [] := by
  rcases raiseEvent_shape m ev dt with ⟨h1, _⟩ | h1 | h1 | h1 <;>
    rw [h1] <;> simp [guardsOf]

theorem raisedOf_raiseEvent_kind (m : StateMachine) (ev : EvKind) (dt : Int) :
    ∀ x ∈ raisedOf (raiseEvent m ev dt).1, x = (ev, m.state, dt) := by
  rcases raiseEvent_shape m ev dt with ⟨h1, _⟩ | h1 | h1 | h1 <;>
    rw [h1] <;> simp [raisedOf]

/-! Trace bookkeeping lemmas. -/

theorem raisedOf_append (a b : List Ev) :
    raisedOf (a ++ b) = raisedOf a ++ raisedOf b := by
  simp [raisedOf]

theorem guardsOf_append (a b : List Ev) :
    guardsOf (a ++ b) = guardsOf a ++ guardsOf b := by
  simp [guardsOf]

theorem raisedOf_cons_guard (t : String) (l : List Ev) :
    raisedOf (Ev.guardEval t :: l) = raisedOf l := by
  simp [raisedOf]

theorem guardsOf_cons_guard (t : String) (l : List Ev) :
    guardsOf (Ev.guardEval t :: l) = t :: guardsOf l := by
  simp [guardsOf]

/-! Lemmas about the transition-evaluation loop. -/

theorem transLoop_skip (m : StateMachine) (dt : Int)
    (pre l : List (String × CBinding))
    (h : ∀ p ∈ pre, checkTransition m.target p.2 = Except.ok false) :
    transLoop m dt (pre ++ l) =
      ((transLoop m dt l).1,
        pre.map (fun p => Ev.guardEval p.1) ++ (transLoop m dt l).2.1,
        (transLoop m dt l).2.2) := by
  induction pre with
  | nil => rfl
  | cons hd tl ih =>
    rcases hd with ⟨ts, cb⟩
    have hc : checkTransition m.target cb = Except.ok false :=
      h (ts, cb) (by simp)
    have ih' := ih (fun p hp => h p (by simp [hp]))
    simp [transLoop, hc, ih']

theorem transLoop_raised_kind (m : StateMachine) (dt : Int)
    (l : List (String × CBinding)) :
    ∀ x ∈ raisedOf (transLoop m dt l).2.1,
      x.1 = EvKind.on_exit ∨ x.1 = EvKind.on_entry := by
  induction l with
  | nil => simp [transLoop, raisedOf]
  | cons hd tl ih =>
    rcases hd with ⟨ts, cb⟩
    intro x hx
    rw [show transLoop m dt ((ts, cb) :: tl) =
        (match checkTransition m.target cb with
          | Except.error f => (m, [Ev.guardEval ts], some f)
          | Except.ok false =>
            match transLoop m dt tl with
            | (m2, tr, f) => (m2, Ev.guardEval ts :: tr, f)
          | Except.ok true =>
            let r1 := raiseEvent m EvKind.on_exit dt
            match r1.2 with
            | some f => (m, Ev.guardEval ts :: r1.1, some f)
            | Option.none =>
              let m2 := { m with state := some ts }
              let r2 := raiseEvent m2 EvKind.on_entry dt
              (m2, Ev.guardEval ts :: (r1.1 ++ r2.1), r2.2)) from rfl] at hx
    rcases hc : checkTransition m.target cb with f | b
    · rw [hc] at hx
      simp [raisedOf] at hx
    · rcases b with _ | _
      · rw [hc] at hx
        rcases ht : transLoop m dt tl with ⟨m2, tr, fl⟩
        rw [ht] at hx
        simp only [raisedOf_cons_guard] at hx
        have := ih x
        rw [ht] at this
        exact this hx
      · rw [hc] at hx
        simp only [] at hx
        rcases hr : (raiseEvent m EvKind.on_exit dt).2 with _ | f
        · rw [hr] at hx
          simp only [raisedOf_cons_guard, raisedOf_append, List.mem_append] at hx
          rcases hx with hx | hx
          · exact Or.inl (by
              have := raisedOf_raiseEvent_kind m EvKind.on_exit dt x hx
              rw [this])
          · exact Or.inr (by
              have := raisedOf_raiseEvent_kind
                { m with state := some ts } EvKind.on_entry dt x hx
              rw [this])
        · rw [hr] at hx
          simp only [raisedOf_cons_guard] at hx
          exact Or.inl (by
            have := raisedOf_raiseEvent_kind m EvKind.on_exit dt x hx
            rw [this])

/-! Frame and growth lemmas about configuration application. -/

theorem ensureState_state (m : StateMachine) (s : String) :
    (ensureState m s).state = m.state := by
  unfold ensureState
  split <;> rfl

theorem ensureState_target (m : StateMachine) (s : String) :
    (ensureState m s).target = m.target := by
  unfold ensureState
  split <;> rfl

theorem ensureState_initial (m : StateMachine) (s : String) :
    (ensureState m s).initial = m.initial := by
  unfold ensureState
  split <;> rfl

theorem ensureState_transition (m : StateMachine) (s : String) :
    (ensureState m s).transition = m.transition := by
  unfold ensureState
  split <;> rfl

theorem stepT_state (m : StateMachine) (f t : String) (c : CfgCheck) :
    (stepT m f t c).state = m.state := by
  rw [show (stepT m f t c).state = (ensureState (ensureState m f) t).state
    from rfl, ensureState_state, ensureState_state]

theorem stepT_target (m : StateMachine) (f t : String) (c : CfgCheck) :
    (stepT m f t c).target = m.target := by
  rw [show (stepT m f t c).target = (ensureState (ensureState m f) t).target
    from rfl, ensureState_target, ensureState_target]

theorem stepT_initial (m : StateMachine) (f t : String) (c : CfgCheck) :
    (stepT m f t c).initial = m.initial := by
  rw [show (stepT m f t c).initial = (ensureState (ensureState m f) t).initial
    from rfl, ensureState_initial, ensureState_initial]

theorem applyT_state (l : List (String × String × CfgCheck)) :
    ∀ m : StateMachine, (applyTransitions m l).state = m.state := by
  induction l with
  | nil => intro m; rfl
  | cons hd tl ih =>
    intro m
    rcases hd with ⟨f, t, c⟩
    rw [show applyTransitions m ((f, t, c) :: tl) =
      applyTransitions (stepT m f t c) tl from rfl, ih, stepT_state]

theorem applyT_target (l : List (String × String × CfgCheck)) :
    ∀ m : StateMachine, (applyTransitions m l).target = m.target := by
  induction l with
  | nil => intro m; rfl
  | cons hd tl ih =>
    intro m
    rcases hd with ⟨f, t, c⟩
    rw [show applyTransitions m ((f, t, c) :: tl) =
      applyTransitions (stepT m f t c) tl from rfl, ih, stepT_target]

theorem applyT_initial (l : List (String × String × CfgCheck)) :
    ∀ m : StateMachine, (applyTransitions m l).initial = m.initial := by
  induction l with
  | nil => intro m; rfl
  | cons hd tl ih =>
    intro m
    rcases hd with ⟨f, t, c⟩
    rw [show applyTransitions m ((f, t, c) :: tl) =
      applyTransitions (stepT m f t c) tl from rfl, ih, stepT_initial]

theorem ensureState_findA (m : StateMachine) (s : String)
    (st : Option String) (h : Handlers)
    (hf : findA m.handler st = some h) :
    findA (ensureState m s).handler st = some h := by
  unfold ensureState
  split
  · exact hf
  · next hs =>
    by_cases he : st = some s
    · rw [he] at hf
      rw [hf] at hs
      cases hs
    · show findA (listUpd m.handler (some s) (defaultHandlers s)) st = some h
      rw [findA_listUpd_ne _ _ _ _ he]
      exact hf

theorem stepT_findA_handler (m : StateMachine) (f t : String) (c : CfgCheck)
    (st : Option String) (h : Handlers)
    (hf : findA m.handler st = some h) :
    findA (stepT m f t c).handler st = some h :=
  ensureState_findA (ensureState m f) t st h (ensureState_findA m f st h hf)

theorem applyT_findA_handler (l : List (String × String × CfgCheck)) :
    ∀ (m : StateMachine) (st : Option String) (h : Handlers),
      findA m.handler st = some h →
      findA (applyTransitions m l).handler st = some h := by
  induction l with
  | nil => intro m st h hf; exact hf
  | cons hd tl ih =>
    intro m st h hf
    rcases hd with ⟨f, t, c⟩
    exact ih (stepT m f t c) st h (stepT_findA_handler m f t c st h hf)

theorem ensureState_new (m : StateMachine) (s s' : String)
    (h : findA m.handler (some s') = Option.none) :
    findA (ensureState m s).handler (some s') = Option.none ∨
    findA (ensureState m s).handler (some s') = some (defaultHandlers s') := by
  unfold ensureState
  split
  · exact Or.inl h
  · by_cases he : s' = s
    · subst he
      exact Or.inr (findA_listUpd_self m.handler (some s') (defaultHandlers s'))
    · refine Or.inl ?_
      show findA (listUpd m.handler (some s) (defaultHandlers s)) (some s') =
        Option.none
      rw [findA_listUpd_ne _ _ _ _ (by simpa using he)]
      exact h

theorem stepT_new (m : StateMachine) (f t : String) (c : CfgCheck) (s' : String)
    (h : findA m.handler (some s') = Option.none) :
    findA (stepT m f t c).handler (some s') = Option.none ∨
    findA (stepT m f t c).handler (some s') = some (defaultHandlers s') := by
  rcases ensureState_new m f s' h with h1 | h1
  · exact ensureState_new (ensureState m f) t s' h1
  · exact Or.inr (ensureState_findA (ensureState m f) t (some s') _ h1)

theorem applyT_new (l : List (String × String × CfgCheck)) :
    ∀ (m : StateMachine) (s' : String),
      findA m.handler (some s') = Option.none →
      findA (applyTransitions m l).handler (some s') = Option.none ∨
      findA (applyTransitions m l).handler (some s') =
        some (defaultHandlers s') := by
  induction l with
  | nil => intro m s' h; exact Or.inl h
  | cons hd tl ih =>
    intro m s' h
    rcases hd with ⟨f, t, c⟩
    rcases stepT_new m f t c s' h with h1 | h1
    · exact ih (stepT m f t c) s' h1
    · exact Or.inr (applyT_findA_handler tl (stepT m f t c) (some s') _ h1)

theorem ensureState_self (m : StateMachine) (s : String) :
    ∃ h, findA (ensureState m s).handler (some s) = some h := by
  unfold ensureState
  split
  · next x hx => exact ⟨x, hx⟩
  · exact ⟨defaultHandlers s,
      findA_listUpd_self m.handler (some s) (defaultHandlers s)⟩

theorem stepT_registered (m : StateMachine) (f t : String) (c : CfgCheck) :
    (∃ h, findA (stepT m f t c).handler (some f) = some h) ∧
    (∃ h, findA (stepT m f t c).handler (some t) = some h) := by
  obtain ⟨h1, hh1⟩ := ensureState_self m f
  obtain ⟨h2, hh2⟩ := ensureState_self (ensureState m f) t
  exact ⟨⟨h1, ensureState_findA (ensureState m f) t (some f) h1 hh1⟩, ⟨h2, hh2⟩⟩

theorem applyT_registered (l : List (String × String × CfgCheck)) :
    ∀ (m : StateMachine) (f t : String) (c : CfgCheck), (f, t, c) ∈ l →
      (∃ h, findA (applyTransitions m l).handler (some f) = some h) ∧
      (∃ h, findA (applyTransitions m l).handler (some t) = some h) := by
  induction l with
  | nil => simp
  | cons hd tl ih =>
    intro m f t c hmem
    rcases hd with ⟨f0, t0, c0⟩
    rcases List.mem_cons.mp hmem with heq | hm'
    · simp only [Prod.mk.injEq] at heq
      obtain ⟨hf, ht, hc⟩ := heq
      subst hf; subst ht; subst hc
      obtain ⟨⟨h1, hh1⟩, ⟨h2, hh2⟩⟩ := stepT_registered m f t c
      exact ⟨⟨h1, applyT_findA_handler tl _ _ _ hh1⟩,
        ⟨h2, applyT_findA_handler tl _ _ _ hh2⟩⟩
    · exact ih (stepT m f0 t0 c0) f t c hm'

theorem lookup2_addTransition (m : StateMachine) (f t : String) (c : CfgCheck)
    (f' t' : String) :
    lookup2 (addTransition m f t c).transition f' t' =
      if f' = f ∧ t' = t then some (mkCheck c)
      else lookup2 m.transition f' t' := by
  unfold addTransition lookup2
  by_cases hf : f' = f
  · subst hf
    rw [findA_listUpd_self]
    dsimp only
    by_cases ht : t' = t
    · subst ht
      rw [findA_listUpd_self]
      simp
    · rw [findA_listUpd_ne _ _ _ _ ht]
      simp only [ht, and_false, if_false]
      cases hft : findA m.transition f' with
      | none => simp [findA]
      | some inner => rfl
  · rw [findA_listUpd_ne _ _ _ _ hf]
    simp [hf]

theorem stepT_lookup2 (m : StateMachine) (f t : String) (c : CfgCheck)
    (f' t' : String) :
    lookup2 (stepT m f t c).transition f' t' =
      if f' = f ∧ t' = t then some (mkCheck c)
      else lookup2 m.transition f' t' := by
  have h := lookup2_addTransition (ensureState (ensureState m f) t) f t c f' t'
  rw [ensureState_transition, ensureState_transition] at h
  exact h

theorem applyT_lookup2 (l : List (String × String × CfgCheck)) :
    ∀ (m : StateMachine) (f t : String),
      lookup2 (applyTransitions m l).transition f t =
        lookup2 m.transition f t ∨
      ∃ c', (f, t, c') ∈ l ∧
        lookup2 (applyTransitions m l).transition f t = some (mkCheck c') := by
  induction l with
  | nil => intro m f t; exact Or.inl rfl
  | cons hd tl ih =>
    intro m f t
    rcases hd with ⟨f0, t0, c0⟩
    rw [show applyTransitions m ((f0, t0, c0) :: tl) =
      applyTransitions (stepT m f0 t0 c0) tl from rfl]
    rcases ih (stepT m f0 t0 c0) f t with h1 | ⟨c', hc', h1⟩
    · rw [h1, stepT_lookup2]
      by_cases hcond : f = f0 ∧ t = t0
      · exact Or.inr ⟨c0, by simp [hcond.1, hcond.2], by rw [if_pos hcond]⟩
      · exact Or.inl (by rw [if_neg hcond])
    · exact Or.inr ⟨c', List.mem_cons_of_mem _ hc', h1⟩

theorem applyT_lookup2_mem (l : List (String × String × CfgCheck)) :
    ∀ (m : StateMachine) (f t : String) (c : CfgCheck), (f, t, c) ∈ l →
      ∃ c', (f, t, c') ∈ l ∧
        lookup2 (applyTransitions m l).transition f t = some (mkCheck c') := by
  induction l with
  | nil => simp
  | cons hd tl ih =>
    intro m f t c hmem
    rcases hd with ⟨f0, t0, c0⟩
    rw [show applyTransitions m ((f0, t0, c0) :: tl) =
      applyTransitions (stepT m f0 t0 c0) tl from rfl]
    rcases List.mem_cons.mp hmem with heq | hm'
    · simp only [Prod.mk.injEq] at heq
      obtain ⟨hf, ht, hc⟩ := heq
      subst hf; subst ht; subst hc
      rcases applyT_lookup2 tl (stepT m f t c) f t with h1 | ⟨c', hc', h1⟩
      · refine ⟨c, List.mem_cons_self _ _, ?_⟩
        rw [h1, stepT_lookup2, if_pos ⟨rfl, rfl⟩]
      · exact ⟨c', List.mem_cons_of_mem _ hc', h1⟩
    · obtain ⟨c', hc', h1⟩ := ih (stepT m f0 t0 c0) f t c hm'
      exact ⟨c', List.mem_cons_of_mem _ hc', h1⟩

theorem stepT_findA_trans_ne (m : StateMachine) (f t : String) (c : CfgCheck)
    (s : String) (hne : f ≠ s) (h : findA m.transition s = Option.none) :
    findA (stepT m f t c).transition s = Option.none := by
  show findA (addTransition (ensureState (ensureState m f) t) f t c).transition
    s = Option.none
  unfold addTransition
  simp only []
  rw [findA_listUpd_ne _ _ _ _ (fun he => hne he.symm)]
  rw [ensureState_transition, ensureState_transition]
  exact h

theorem applyT_findA_trans (l : List (String × String × CfgCheck)) :
    ∀ (m : StateMachine) (s : String), (∀ x ∈ l, x.1 ≠ s) →
      findA m.transition s = Option.none →
      findA (applyTransitions m l).transition s = Option.none := by
  induction l with
  | nil => intro m s _ h; exact h
  | cons hd tl ih =>
    intro m s hne h
    rcases hd with ⟨f, t, c⟩
    rw [show applyTransitions m ((f, t, c) :: tl) =
      applyTransitions (stepT m f t c) tl from rfl]
    refine ih (stepT m f t c) s (fun x hx => hne x (by simp [hx])) ?_
    exact stepT_findA_trans_ne m f t c s (hne (f, t, c) (by simp)) h

theorem setInitial_state (m : StateMachine) (cfg : Cfg) :
    (setInitial m cfg).state = m.state := by
  unfold setInitial
  split <;> rfl

theorem setInitial_target (m : StateMachine) (cfg : Cfg) :
    (setInitial m cfg).target = m.target := by
  unfold setInitial
  split <;> rfl

theorem setInitial_handler (m : StateMachine) (cfg : Cfg) :
    (setInitial m cfg).handler = m.handler := by
  unfold setInitial
  split <;> rfl

theorem setInitial_transition (m : StateMachine) (cfg : Cfg) :
    (setInitial m cfg).transition = m.transition := by
  unfold setInitial
  split <;> rfl

theorem setInitial_initial (m : StateMachine) (cfg : Cfg) :
    (setInitial m cfg).initial =
      (match cfg.initial with
        | some i => some i
        | Option.none => m.initial) := by
  unfold setInitial
  cases h : cfg.initial <;> rfl

theorem guardsOf_map_guard (l : List (String × CBinding)) :
    guardsOf (l.map (fun p => Ev.guardEval p.1)) = l.map Prod.fst := by
  induction l with
  | nil => rfl
  | cons hd tl ih =>
    show guardsOf (Ev.guardEval hd.1 :: tl.map (fun p => Ev.guardEval p.1)) =
      hd.1 :: tl.map Prod.fst
    rw [guardsOf_cons_guard, ih]

theorem raisedOf_map_guard (l : List (String × CBinding)) :
    raisedOf (l.map (fun p => Ev.guardEval p.1)) = [] := by
  induction l with
  | nil => rfl
  | cons hd tl ih =>
    show raisedOf (Ev.guardEval hd.1 :: tl.map (fun p => Ev.guardEval p.1)) = []
    rw [raisedOf_cons_guard, ih]

/-- C9: for every machine, after construction and before any `process` call
the `state` accessor returns the `Uninitialized` sentinel (`None`), and
`reset()` sets the current state back to the sentinel while raising no events
and leaving the target, initial-state identifier, handler mapping and
transition mapping unchanged (it returns a machine and produces no trace at
all). -/
theorem C9_uninitialized_state_and_reset (t : Target) (cfg : Cfg)
    (m : StateMachine) :
    (mkMachine t cfg).state = Option.none ∧
    (reset m).state = Option.none ∧
    (reset m).target = m.target ∧
    (reset m).initial = m.initial ∧
    (reset m).handler = m.handler ∧
    (reset m).transition = m.transition := by
  refine ⟨?_, rfl, rfl, rfl, rfl, rfl⟩
  show (applyTransitions (setInitial (initMachine t) cfg)
    cfg.transitions).state = Option.none
  rw [applyT_state, setInitial_state]
  rfl

/-- C10: for every machine whose current state is a named state with no entry
in the transition mapping, every `process` call raises `KeyError` before
raising any event (the final `in_state` included) and leaves the machine
unchanged; and a state that appears in no configured triple as a from-state
gets no entry in the transition mapping at construction, even when it appears
as a to-state. -/
theorem C10_missing_transition_entry (m : StateMachine) (dt : Int) (s : String)
    (h1 : m.state = some s) (h2 : findA m.transition s = Option.none) :
    doProcess m dt = ⟨m, [], some Fault.keyError⟩ ∧
    ∀ (t : Target) (cfg : Cfg), (∀ x ∈ cfg.transitions, x.1 ≠ s) →
      findA (mkMachine t cfg).transition s = Option.none := by
  constructor
  · unfold doProcess
    rw [h1]
    dsimp only
    rw [h2]
  · intro t cfg hne
    show findA (applyTransitions (setInitial (initMachine t) cfg)
      cfg.transitions).transition s = Option.none
    refine applyT_findA_trans cfg.transitions _ s hne ?_
    rw [setInitial_transition]
    rfl

/-- C10 witness: a machine whose initial state `B` occurs only as a to-state;
the cycle after the initial entry raises `KeyError` with an empty trace. -/
theorem C10_missing_transition_entry_witness :
    doProcess mSinkState 4 = ⟨mSinkState, [], some Fault.keyError⟩ ∧
    ∀ (t : Target) (cfg : Cfg), (∀ x ∈ cfg.transitions, x.1 ≠ "B") →
      findA (mkMachine t cfg).transition "B" = Option.none :=
  C10_missing_transition_entry mSinkState 4 "B" (by decide) (by decide)

/-- C1 (amended): for every machine whose current state is the sentinel
(fresh construction or any history followed by `reset`), when the configured
initial state has an entry in the handler mapping and its `on_entry` and
`in_state` handlers do not themselves raise, `process` sets the state to the
initial state, raises exactly `on_entry` then `in_state` on it, each with a
zero time-delta, evaluates no guard, and returns normally — regardless of the
`deltaTime` argument and of prior history. -/
theorem C1_first_cycle (m : StateMachine) (dt : Int) (hs : Handlers)
    (h0 : m.state = Option.none)
    (h1 : findA m.handler m.initial = some hs)
    (h2 : noFaultH m.target hs.on_entry 0 = true)
    (h3 : noFaultH m.target hs.in_state 0 = true) :
    (doProcess m dt).machine.state = m.initial ∧
    (doProcess m dt).fault = Option.none ∧
    raisedOf (doProcess m dt).trace =
      [(EvKind.on_entry, m.initial, 0), (EvKind.in_state, m.initial, 0)] ∧
    guardsOf (doProcess m dt).trace = [] := by
  have h1m : findA ({ m with state := m.initial } : StateMachine).handler
      ({ m with state := m.initial } : StateMachine).state = some hs := h1
  have hr1 := raiseEvent_ok { m with state := m.initial } EvKind.on_entry 0
    hs h1m h2
  have hr2 := raiseEvent_ok { m with state := m.initial } EvKind.in_state 0
    hs h1m h3
  unfold doProcess
  rw [h0]
  dsimp only
  rcases hr1 with hr1 | hr1 <;> rcases hr2 with hr2 | hr2 <;>
    rw [hr1] <;> dsimp only <;> rw [hr2] <;>
    exact ⟨rfl, rfl, by simp [raisedOf], by simp [guardsOf]⟩

/-- C1 counterexample: on a machine whose configured initial state appears in
no transition (`initial = A`, empty transition list), the first `process`
call sets the state to `A` but raises `KeyError` with no `on_entry`, no
`in_state` and no normal return — so the claim as stated fails. -/
theorem C1_first_cycle_counterexample :
    (doProcess mNoInitialEntry 1).machine.state = some "A" ∧
    (doProcess mNoInitialEntry 1).trace = [] ∧
    (doProcess mNoInitialEntry 1).fault = some Fault.keyError := by
  refine ⟨by decide, by decide, by decide⟩

/-- C1 witness: the amended first-cycle behaviour on a concrete machine with
registered initial state `A` and `deltaTime` 5. -/
theorem C1_first_cycle_witness :
    (doProcess mFirstCycle 5).machine.state = some "A" ∧
    (doProcess mFirstCycle 5).fault = Option.none ∧
    raisedOf (doProcess mFirstCycle 5).trace =
      [(EvKind.on_entry, some "A", 0), (EvKind.in_state, some "A", 0)] ∧
    guardsOf (doProcess mFirstCycle 5).trace = [] := by
  have h := C1_first_cycle mFirstCycle 5 (defaultHandlers "A") (by decide)
    (by rfl) (by rfl) (by rfl)
  exact h

/-- C4 (amended): for every machine in a named state whose first outgoing
transition carries a guard stored as a name that does not resolve to a member
of the current target, `process` raises `AttributeError`: the transition does
not fire, the state is unchanged, no event is raised, and the fault
propagates to the caller instead of the guard being silently skipped. -/
theorem C4_unresolved_guard (m : StateMachine) (dt : Int) (s ts g : String)
    (rest : List (String × CBinding))
    (h1 : m.state = some s)
    (h2 : findA m.transition s = some ((ts, CBinding.name g) :: rest))
    (h3 : m.target.members g = Option.none) :
    doProcess m dt = ⟨m, [Ev.guardEval ts], some Fault.attributeError⟩ := by
  have hc : checkTransition m.target (CBinding.name g) =
      Except.error Fault.attributeError := by
    unfold checkTransition
    dsimp only
    rw [h3]
  unfold doProcess
  rw [h1]
  dsimp only
  rw [h2]
  dsimp only
  simp only [transLoop, hc]

/-- C4 counterexample: a machine in state `A` whose only guard is the
unresolvable name `g` (stored as `_check_g`); `process` raises
`AttributeError` rather than silently skipping the guard, refuting the claim
as stated. -/
theorem C4_unresolved_guard_counterexample :
    (doProcess mBadGuard 3).fault = some Fault.attributeError ∧
    (doProcess mBadGuard 3).machine.state = some "A" ∧
    raisedOf (doProcess mBadGuard 3).trace = [] := by
  refine ⟨by decide, by decide, by decide⟩

/-- C4 witness: the amended behaviour on the same concrete machine. -/
theorem C4_unresolved_guard_witness :
    doProcess mBadGuard 3 =
      ⟨mBadGuard, [Ev.guardEval "B"], some Fault.attributeError⟩ :=
  C4_unresolved_guard mBadGuard 3 "A" "B" "_check_g" [] (by decide)
    (by decide) (by rfl)

/-- C8: for every machine whose current state has a handler entry binding an
event to a name that does not resolve to a member of the current target,
raising that event is a silent no-op: the event is raised, nothing is called,
and no fault is produced. -/
theorem C8_missing_handler_noop (m : StateMachine) (ev : EvKind) (dt : Int)
    (hs : Handlers) (n : String)
    (h1 : findA m.handler m.state = some hs)
    (h2 : hs.get ev = HBinding.hname n)
    (h3 : m.target.members n = Option.none) :
    raiseEvent m ev dt = ([Ev.raised ev m.state dt], Option.none) := by
  unfold raiseEvent
  rw [h1]
  dsimp only
  rw [h2]
  dsimp only
  by_cases hn : n = ""
  · rw [if_pos hn]
  · rw [if_neg hn, h3]

/-- C8 witness: raising `in_state` on a state whose handler name `g` is
absent from the empty target returns no fault and calls nothing. -/
theorem C8_missing_handler_noop_witness :
    raiseEvent mMissingHandler EvKind.in_state 3 =
      ([Ev.raised EvKind.in_state (some "T") 3], Option.none) :=
  C8_missing_handler_noop mMissingHandler EvKind.in_state 3
    ⟨HBinding.hnone, HBinding.hname "g", HBinding.hnone⟩ "g"
    (by rfl) (by rfl) (by rfl)

theorem in_state_only (m : StateMachine) (s n : String) (hs : Handlers)
    (dt : Int)
    (h1 : m.state = some s) (h2 : findA m.transition s = some [])
    (h3 : findA m.handler (some s) = some hs)
    (h4 : hs.in_state = HBinding.hname n) (h5 : ¬ n = "") :
    doProcess m dt = ⟨m,
      (namedDispatch m.target n dt (some s) EvKind.in_state).1,
      (namedDispatch m.target n dt (some s) EvKind.in_state).2⟩ := by
  unfold doProcess
  rw [h1]
  dsimp only
  rw [h2]
  dsimp only
  simp only [transLoop]
  try dsimp only
  unfold raiseEvent
  rw [h1, h3]
  dsimp only [Handlers.get]
  rw [h4]
  dsimp only
  rw [if_neg h5]
  unfold namedDispatch
  cases hm : m.target.members n
  · simp
  · simp

theorem checkTransition_name (t : Target) (g : String) :
    checkTransition t (CBinding.name g) = namedGuard t g := rfl

theorem guard_cycle_error (M : StateMachine) (s2 ts g : String) (e : Int)
    (f : Fault)
    (k1 : M.state = some s2)
    (k2 : findA M.transition s2 = some [(ts, CBinding.name g)])
    (hg : namedGuard M.target g = Except.error f) :
    doProcess M e = ⟨M, [Ev.guardEval ts], some f⟩ := by
  have hc : checkTransition M.target (CBinding.name g) = Except.error f := by
    rw [checkTransition_name, hg]
  unfold doProcess
  rw [k1]
  dsimp only
  rw [k2]
  dsimp only
  simp only [transLoop, hc]

theorem guard_cycle_false (M : StateMachine) (s2 ts g : String)
    (hs2 : Handlers) (e : Int)
    (k1 : M.state = some s2)
    (k2 : findA M.transition s2 = some [(ts, CBinding.name g)])
    (k3 : findA M.handler (some s2) = some hs2)
    (k4 : hs2.in_state = HBinding.hnone)
    (hg : namedGuard M.target g = Except.ok false) :
    doProcess M e = ⟨M,
      [Ev.guardEval ts, Ev.raised EvKind.in_state (some s2) e],
      Option.none⟩ := by
  have hc : checkTransition M.target (CBinding.name g) = Except.ok false := by
    rw [checkTransition_name, hg]
  unfold doProcess
  rw [k1]
  dsimp only
  rw [k2]
  dsimp only
  simp only [transLoop, hc]
  unfold raiseEvent
  rw [k1, k3]
  dsimp only [Handlers.get]
  rw [k4]
  simp

theorem guard_cycle_true (M : StateMachine) (s2 ts g : String)
    (hs2 : Handlers) (e : Int)
    (k1 : M.state = some s2)
    (k2 : findA M.transition s2 = some [(ts, CBinding.name g)])
    (k3 : findA M.handler (some s2) = some hs2)
    (k5 : hs2.on_exit = HBinding.hnone)
    (hg : namedGuard M.target g = Except.ok true) :
    (doProcess M e).machine.state = some ts := by
  have hc : checkTransition M.target (CBinding.name g) = Except.ok true := by
    rw [checkTransition_name, hg]
  have hx : raiseEvent M EvKind.on_exit e =
      ([Ev.raised EvKind.on_exit (some s2) e], Option.none) := by
    unfold raiseEvent
    rw [k1, k3]
    dsimp only [Handlers.get]
    rw [k5]
  unfold doProcess
  rw [k1]
  dsimp only
  rw [k2]
  dsimp only
  simp only [transLoop, hc]
  rw [hx]
  dsimp only
  split <;> rfl

/-- C7: name-bound handlers and guards are resolved on the target at every
invocation rather than cached.  For a machine whose current state binds
`in_state` to the name `n`, processing once with target `t1` dispatches `n`
against `t1`, and after assigning `t2` to the target property the next
`process` call dispatches the same stored name against `t2`.  For a machine
whose current state has one outgoing transition guarded by the stored name
`g`, a cycle with target `u1` (whose `g` member returns false) evaluates the
guard against `u1` and leaves the machine unchanged, and after assigning any
target `u2` the next cycle evaluates the same stored guard name against
`u2`: it raises the fault `u2`'s resolution produces, stays put when `u2`'s
member returns false, and commits the transition when it returns true. -/
theorem C7_late_binding (m : StateMachine) (s n : String) (hs : Handlers)
    (t1 t2 : Target) (dt1 dt2 : Int)
    (mg : StateMachine) (s2 ts g : String) (hs2 : Handlers)
    (u1 u2 : Target) (w1 w2 : Int) (mem1 : Member)
    (h1 : m.state = some s) (h2 : findA m.transition s = some [])
    (h3 : findA m.handler (some s) = some hs)
    (h4 : hs.in_state = HBinding.hname n) (h5 : ¬ n = "")
    (k1 : mg.state = some s2)
    (k2 : findA mg.transition s2 = some [(ts, CBinding.name g)])
    (k3 : findA mg.handler (some s2) = some hs2)
    (k4 : hs2.in_state = HBinding.hnone)
    (k5 : hs2.on_exit = HBinding.hnone)
    (k6 : u1.members g = some mem1)
    (k7 : mem1.callable = true)
    (k8 : mem1.gbeh = GOut.ret false) :
    (doProcess (withTarget m t1) dt1).machine.state = some s ∧
    ((doProcess (withTarget m t1) dt1).trace,
      (doProcess (withTarget m t1) dt1).fault) =
      namedDispatch t1 n dt1 (some s) EvKind.in_state ∧
    ((doProcess (withTarget (doProcess (withTarget m t1) dt1).machine t2)
        dt2).trace,
      (doProcess (withTarget (doProcess (withTarget m t1) dt1).machine t2)
        dt2).fault) =
      namedDispatch t2 n dt2 (some s) EvKind.in_state ∧
    doProcess (withTarget mg u1) w1 = ⟨withTarget mg u1,
      [Ev.guardEval ts, Ev.raised EvKind.in_state (some s2) w1],
      Option.none⟩ ∧
    (∀ f : Fault, namedGuard u2 g = Except.error f →
      doProcess (withTarget (withTarget mg u1) u2) w2 =
        ⟨withTarget (withTarget mg u1) u2, [Ev.guardEval ts], some f⟩) ∧
    (namedGuard u2 g = Except.ok false →
      doProcess (withTarget (withTarget mg u1) u2) w2 =
        ⟨withTarget (withTarget mg u1) u2,
          [Ev.guardEval ts, Ev.raised EvKind.in_state (some s2) w2],
          Option.none⟩) ∧
    (namedGuard u2 g = Except.ok true →
      (doProcess (withTarget (withTarget mg u1) u2) w2).machine.state =
        some ts) := by
  have hg1 : namedGuard u1 g = Except.ok false := by
    simp [namedGuard, k6, k7, k8]
  have e1 := in_state_only (withTarget m t1) s n hs dt1 h1 h2 h3 h4 h5
  rw [e1]
  dsimp only
  refine ⟨h1, rfl, ?_,
    guard_cycle_false (withTarget mg u1) s2 ts g hs2 w1 k1 k2 k3 k4 hg1,
    ?_, ?_, ?_⟩
  · have e2 := in_state_only (withTarget (withTarget m t1) t2) s n hs dt2
      h1 h2 h3 h4 h5
    rw [e2]
    rfl
  · intro f hf
    exact guard_cycle_error (withTarget (withTarget mg u1) u2) s2 ts g w2 f
      k1 k2 hf
  · intro hf
    exact guard_cycle_false (withTarget (withTarget mg u1) u2) s2 ts g hs2 w2
      k1 k2 k3 k4 hf
  · intro hf
    exact guard_cycle_true (withTarget (withTarget mg u1) u2) s2 ts g hs2 w2
      k1 k2 k3 k5 hf

/-- C7 witness: the machine `mNamedInState` processed once against a target
owning `f`, then once against the empty target after a target swap; and the
machine `mNamedGuard`, whose stored guard name `c` is dispatched first
against a target whose `c` returns false and, after a swap, against a target
whose `c` returns true. -/
theorem C7_late_binding_witness :
    (doProcess (withTarget mNamedInState tgtF) 2).machine.state = some "S" ∧
    ((doProcess (withTarget mNamedInState tgtF) 2).trace,
      (doProcess (withTarget mNamedInState tgtF) 2).fault) =
      namedDispatch tgtF "f" 2 (some "S") EvKind.in_state ∧
    ((doProcess (withTarget
        (doProcess (withTarget mNamedInState tgtF) 2).machine emptyTarget)
        3).trace,
      (doProcess (withTarget
        (doProcess (withTarget mNamedInState tgtF) 2).machine emptyTarget)
        3).fault) =
      namedDispatch emptyTarget "f" 3 (some "S") EvKind.in_state ∧
    doProcess (withTarget mNamedGuard tgtGuardFalse) 8 =
      ⟨withTarget mNamedGuard tgtGuardFalse,
        [Ev.guardEval "H", Ev.raised EvKind.in_state (some "G") 8],
        Option.none⟩ ∧
    (∀ f : Fault, namedGuard tgtGuardTrue "c" = Except.error f →
      doProcess (withTarget (withTarget mNamedGuard tgtGuardFalse)
          tgtGuardTrue) 9 =
        ⟨withTarget (withTarget mNamedGuard tgtGuardFalse) tgtGuardTrue,
          [Ev.guardEval "H"], some f⟩) ∧
    (namedGuard tgtGuardTrue "c" = Except.ok false →
      doProcess (withTarget (withTarget mNamedGuard tgtGuardFalse)
          tgtGuardTrue) 9 =
        ⟨withTarget (withTarget mNamedGuard tgtGuardFalse) tgtGuardTrue,
          [Ev.guardEval "H", Ev.raised EvKind.in_state (some "G") 9],
          Option.none⟩) ∧
    (namedGuard tgtGuardTrue "c" = Except.ok true →
      (doProcess (withTarget (withTarget mNamedGuard tgtGuardFalse)
          tgtGuardTrue) 9).machine.state = some "H") :=
  C7_late_binding mNamedInState "S" "f"
    ⟨HBinding.hnone, HBinding.hname "f", HBinding.hnone⟩ tgtF emptyTarget 2 3
    mNamedGuard "G" "H" "c"
    ⟨HBinding.hnone, HBinding.hnone, HBinding.hnone⟩
    tgtGuardFalse tgtGuardTrue 8 9 memFalse
    (by rfl) (by decide) (by rfl) (by rfl) (by decide)
    (by rfl) (by decide) (by rfl) (by rfl) (by rfl)
    (by rfl) (by rfl) (by rfl)

/-- C5: a fault raised by the `on_entry` handler of a transition that has
already fired propagates to the caller with the state already committed to
the new to-state: the cycle raised `on_exit` on the old state and `on_entry`
on the new state, performed no rollback, and the final `in_state` did not
occur. -/
theorem C5_entry_fault_no_rollback (m : StateMachine) (dt : Int)
    (s ts : String) (cb : CBinding) (rest : List (String × CBinding))
    (hs hs2 : Handlers)
    (h1 : m.state = some s)
    (h2 : findA m.transition s = some ((ts, cb) :: rest))
    (h3 : checkTransition m.target cb = Except.ok true)
    (h4 : findA m.handler (some s) = some hs)
    (h5 : noFaultH m.target hs.on_exit dt = true)
    (h6 : findA m.handler (some ts) = some hs2)
    (h7 : noFaultH m.target hs2.on_entry dt = false) :
    (doProcess m dt).machine.state = some ts ∧
    (doProcess m dt).fault = some Fault.userFault ∧
    raisedOf (doProcess m dt).trace =
      [(EvKind.on_exit, some s, dt), (EvKind.on_entry, some ts, dt)] := by
  have hx := raiseEvent_ok m EvKind.on_exit dt hs (by rw [h1]; exact h4) h5
  have he : raiseEvent { m with state := some ts } EvKind.on_entry dt =
      ([Ev.raised EvKind.on_entry (some ts) dt], some Fault.userFault) :=
    raiseEvent_fault { m with state := some ts } EvKind.on_entry dt hs2 h6 h7
  unfold doProcess
  rw [h1]
  dsimp only
  rw [h2]
  dsimp only
  simp only [transLoop, h3]
  rcases hx with hx | hx <;> rw [hx] <;> dsimp only <;> rw [he] <;>
    dsimp only <;> exact ⟨rfl, rfl, by simp [raisedOf, h1]⟩

/-- C5 witness: the machine `mEntryFault` in state `A`, whose always-true
transition to `B` triggers the raising `_on_entry_B` handler. -/
theorem C5_entry_fault_no_rollback_witness :
    (doProcess mEntryFault 2).machine.state = some "B" ∧
    (doProcess mEntryFault 2).fault = some Fault.userFault ∧
    raisedOf (doProcess mEntryFault 2).trace =
      [(EvKind.on_exit, some "A", 2), (EvKind.on_entry, some "B", 2)] :=
  C5_entry_fault_no_rollback mEntryFault 2 "A" "B"
    (CBinding.func (GOut.ret true)) [] (defaultHandlers "A")
    (defaultHandlers "B") (by decide) (by decide) (by rfl) (by rfl)
    (by rfl) (by rfl) (by rfl)

theorem take_two_cons {α : Type} (a b : α) (l : List α) :
    (a :: b :: l).take 2 = [a, b] := rfl

theorem guardsOf_nil : guardsOf [] = [] := rfl

theorem raisedOf_nil : raisedOf [] = [] := rfl

theorem guardsOf_cons_raised (k : EvKind) (st : Option String) (d : Int)
    (l : List Ev) : guardsOf (Ev.raised k st d :: l) = guardsOf l := by
  simp [guardsOf]

theorem guardsOf_cons_called (k : EvKind) (st : Option String) (d : Int)
    (l : List Ev) : guardsOf (Ev.called k st d :: l) = guardsOf l := by
  simp [guardsOf]

theorem raisedOf_cons_raised (k : EvKind) (st : Option String) (d : Int)
    (l : List Ev) :
    raisedOf (Ev.raised k st d :: l) = (k, st, d) :: raisedOf l := by
  simp [raisedOf]

theorem raisedOf_cons_called (k : EvKind) (st : Option String) (d : Int)
    (l : List Ev) : raisedOf (Ev.called k st d :: l) = raisedOf l := by
  simp [raisedOf]

/-- C2: on a cycle after the first, `process` evaluates the outgoing guards
of the current state in iteration order; on the first guard that returns
true it raises `on_exit` on the old state with `deltaTime`, sets the state to
that transition's to-state, raises `on_entry` on the new state with
`deltaTime`, and evaluates no further guard — so at most one transition fires
even when later guards would also return true. -/
theorem C2_one_transition_per_cycle (m : StateMachine) (dt : Int)
    (s ts : String) (cb : CBinding) (pre post : List (String × CBinding))
    (hs hs2 : Handlers)
    (h1 : m.state = some s)
    (h2 : findA m.transition s = some (pre ++ (ts, cb) :: post))
    (h3 : ∀ p ∈ pre, checkTransition m.target p.2 = Except.ok false)
    (h4 : checkTransition m.target cb = Except.ok true)
    (h5 : findA m.handler (some s) = some hs)
    (h6 : noFaultH m.target hs.on_exit dt = true)
    (h7 : findA m.handler (some ts) = some hs2)
    (h8 : noFaultH m.target hs2.on_entry dt = true) :
    (doProcess m dt).machine.state = some ts ∧
    guardsOf (doProcess m dt).trace = pre.map Prod.fst ++ [ts] ∧
    (raisedOf (doProcess m dt).trace).take 2 =
      [(EvKind.on_exit, some s, dt), (EvKind.on_entry, some ts, dt)] := by
  have hx := raiseEvent_ok m EvKind.on_exit dt hs (by rw [h1]; exact h5) h6
  have hy := raiseEvent_ok { m with state := some ts } EvKind.on_entry dt
    hs2 h7 h8
  unfold doProcess
  rw [h1]
  dsimp only
  rw [h2]
  dsimp only
  rw [transLoop_skip m dt pre ((ts, cb) :: post) h3]
  simp only [transLoop, h4]
  rcases hx with hx | hx <;> rcases hy with hy | hy <;>
    rw [hx] <;> dsimp only <;> rw [hy] <;> dsimp only <;>
    refine ⟨rfl, ?_, ?_⟩ <;>
    simp [guardsOf_append, guardsOf_cons_guard, guardsOf_cons_raised,
      guardsOf_cons_called, guardsOf_nil, guardsOf_map_guard,
      guardsOf_raiseEvent, raisedOf_append, raisedOf_cons_guard,
      raisedOf_cons_raised, raisedOf_cons_called, raisedOf_nil,
      raisedOf_map_guard, take_two_cons, h1]

/-- C2 witness: `mTieBreak` sits in state `I` with outgoing guards false
(towards `A`), true (towards `B`), true (towards `C`); only the `B`
transition fires and the guard towards `C` is never evaluated. -/
theorem C2_one_transition_per_cycle_witness :
    (doProcess mTieBreak 5).machine.state = some "B" ∧
    guardsOf (doProcess mTieBreak 5).trace =
      [("A", CBinding.func (GOut.ret false))].map Prod.fst ++ ["B"] ∧
    (raisedOf (doProcess mTieBreak 5).trace).take 2 =
      [(EvKind.on_exit, some "I", 5), (EvKind.on_entry, some "B", 5)] :=
  C2_one_transition_per_cycle mTieBreak 5 "I" "B"
    (CBinding.func (GOut.ret true))
    [("A", CBinding.func (GOut.ret false))]
    [("C", CBinding.func (GOut.ret true))]
    (defaultHandlers "I") (defaultHandlers "B")
    (by decide) (by decide)
    (by intro p hp; simp only [List.mem_singleton] at hp; subst hp; rfl)
    (by rfl) (by rfl) (by rfl) (by rfl) (by rfl)

/-- C3 (amended): every `process` call that returns without a fault ends
with exactly one `in_state` event, raised as the last event of the cycle on
the current state at that point (the new state if a transition fired); the
event carries `deltaTime` on cycles after the first and zero on the first
cycle. -/
theorem C3_final_in_state (m : StateMachine) (dt : Int)
    (h : (doProcess m dt).fault = Option.none) :
    ∃ l', raisedOf (doProcess m dt).trace =
        l' ++ [(EvKind.in_state, (doProcess m dt).machine.state,
          match m.state with | Option.none => (0 : Int) | some _ => dt)] ∧
      ∀ x ∈ l', x.1 ≠ EvKind.in_state := by
  rcases hms : m.state with _ | s
  · rcases hr1 : (raiseEvent { m with state := m.initial }
        EvKind.on_entry 0).2 with _ | f
    · have hd : doProcess m dt = ⟨{ m with state := m.initial },
          (raiseEvent { m with state := m.initial } EvKind.on_entry 0).1 ++
            (raiseEvent { m with state := m.initial } EvKind.in_state 0).1,
          (raiseEvent { m with state := m.initial } EvKind.in_state 0).2⟩ := by
        unfold doProcess
        rw [hms]
        dsimp only
        rw [hr1]
      rw [hd] at h ⊢
      dsimp only at h ⊢
      refine ⟨raisedOf (raiseEvent { m with state := m.initial }
        EvKind.on_entry 0).1, ?_, ?_⟩
      · rw [raisedOf_append, raiseEvent_none_raisedOf
          { m with state := m.initial } EvKind.in_state 0 h]
      · intro x hx
        have hk := raisedOf_raiseEvent_kind { m with state := m.initial }
          EvKind.on_entry 0 x hx
        rw [hk]
        simp
    · have hd : doProcess m dt = ⟨{ m with state := m.initial },
          (raiseEvent { m with state := m.initial } EvKind.on_entry 0).1,
          some f⟩ := by
        unfold doProcess
        rw [hms]
        dsimp only
        rw [hr1]
      rw [hd] at h
      exact absurd h (by simp)
  · rcases hout : findA m.transition s with _ | outs
    · have hd : doProcess m dt = ⟨m, [], some Fault.keyError⟩ := by
        unfold doProcess
        rw [hms]
        dsimp only
        rw [hout]
      rw [hd] at h
      exact absurd h (by simp)
    · rcases hl : (transLoop m dt outs).2.2 with _ | f
      · have hd : doProcess m dt = ⟨(transLoop m dt outs).1,
            (transLoop m dt outs).2.1 ++
              (raiseEvent (transLoop m dt outs).1 EvKind.in_state dt).1,
            (raiseEvent (transLoop m dt outs).1 EvKind.in_state dt).2⟩ := by
          unfold doProcess
          rw [hms]
          dsimp only
          rw [hout]
          dsimp only
          rw [hl]
        rw [hd] at h ⊢
        dsimp only at h ⊢
        refine ⟨raisedOf (transLoop m dt outs).2.1, ?_, ?_⟩
        · rw [raisedOf_append, raiseEvent_none_raisedOf
            (transLoop m dt outs).1 EvKind.in_state dt h]
        · intro x hx
          rcases transLoop_raised_kind m dt outs x hx with hk | hk <;>
            rw [hk] <;> simp
      · have hd : doProcess m dt = ⟨(transLoop m dt outs).1,
            (transLoop m dt outs).2.1, some f⟩ := by
          unfold doProcess
          rw [hms]
          dsimp only
          rw [hout]
          dsimp only
          rw [hl]
        rw [hd] at h
        exact absurd h (by simp)

/-- C3 counterexample: on the first cycle the unique `in_state` event carries
a zero time-delta, not the `deltaTime` argument — with `deltaTime = 7` the
call returns normally yet no `in_state` event with time-delta 7 is raised,
refuting the claim as stated. -/
theorem C3_final_in_state_counterexample :
    (doProcess mDtFirst 7).fault = Option.none ∧
    (EvKind.in_state, (doProcess mDtFirst 7).machine.state, (7 : Int)) ∉
      raisedOf (doProcess mDtFirst 7).trace := by
  refine ⟨by decide, by decide⟩

/-- C3 witness: a fault-free cycle after the first on a concrete machine. -/
theorem C3_final_in_state_witness :
    ∃ l', raisedOf (doProcess mDtLoop 5).trace =
        l' ++ [(EvKind.in_state, (doProcess mDtLoop 5).machine.state,
          match mDtLoop.state with
          | Option.none => (0 : Int)
          | some _ => (5 : Int))] ∧
      ∀ x ∈ l', x.1 ≠ EvKind.in_state :=
  C3_final_in_state mDtLoop 5 (by decide)

/-- C6: `extend(cfg)` leaves the current state and target untouched, updates
the initial-state identifier only when `cfg` provides one, keeps every
existing handler entry unchanged, registers each previously unknown from/to
state of the new triples with the default name-derived handler bindings, sets
the guard of every from→to pair named in `cfg` (to the guard of one of the
triples for that pair, overwriting only when the identical pair is
redefined), leaves every from→to pair not named in `cfg` unchanged, and
removes nothing. -/
theorem C6_extend_merge (m : StateMachine) (cfg : Cfg) :
    (extend m cfg).state = m.state ∧
    (extend m cfg).target = m.target ∧
    (extend m cfg).initial =
      (match cfg.initial with
        | some i => some i
        | Option.none => m.initial) ∧
    (∀ (st : Option String) (h : Handlers), findA m.handler st = some h →
      findA (extend m cfg).handler st = some h) ∧
    (∀ (s : String) (h : Handlers), findA m.handler (some s) = Option.none →
      findA (extend m cfg).handler (some s) = some h →
      h = defaultHandlers s) ∧
    (∀ (f t : String) (c : CfgCheck), (f, t, c) ∈ cfg.transitions →
      (∃ h, findA (extend m cfg).handler (some f) = some h) ∧
      (∃ h, findA (extend m cfg).handler (some t) = some h) ∧
      ∃ c', (f, t, c') ∈ cfg.transitions ∧
        lookup2 (extend m cfg).transition f t = some (mkCheck c')) ∧
    (∀ f t : String, (∀ c : CfgCheck, (f, t, c) ∉ cfg.transitions) →
      lookup2 (extend m cfg).transition f t = lookup2 m.transition f t) ∧
    (∀ f t : String, (lookup2 m.transition f t).isSome →
      (lookup2 (extend m cfg).transition f t).isSome) := by
  unfold extend
  refine ⟨?_, ?_, ?_, ?_, ?_, ?_, ?_, ?_⟩
  · rw [applyT_state, setInitial_state]
  · rw [applyT_target, setInitial_target]
  · rw [applyT_initial, setInitial_initial]
  · intro st h hf
    exact applyT_findA_handler cfg.transitions (setInitial m cfg) st h
      (by rw [setInitial_handler]; exact hf)
  · intro s h hnone hsome
    rcases applyT_new cfg.transitions (setInitial m cfg) s
      (by rw [setInitial_handler]; exact hnone) with h1 | h1
    · rw [h1] at hsome
      cases hsome
    · rw [h1] at hsome
      injection hsome with hh
      exact hh.symm
  · intro f t c hmem
    refine ⟨(applyT_registered cfg.transitions (setInitial m cfg)
        f t c hmem).1,
      (applyT_registered cfg.transitions (setInitial m cfg) f t c hmem).2,
      applyT_lookup2_mem cfg.transitions (setInitial m cfg) f t c hmem⟩
  · intro f t hnot
    rcases applyT_lookup2 cfg.transitions (setInitial m cfg) f t
      with h1 | ⟨c', hc', _⟩
    · rw [h1, setInitial_transition]
    · exact absurd hc' (hnot c')
  · intro f t hsome
    rcases applyT_lookup2 cfg.transitions (setInitial m cfg) f t
      with h1 | ⟨c', _, h1⟩
    · rw [h1, setInitial_transition]
      exact hsome
    · rw [h1]
      rfl

/-- C6 witness: extending `mExtendBase` with `cfgExtendMore` adds the
`A`→`C` pair, overwrites the guard of the redefined `A`→`B` pair, leaves the
initial state and current state alone, and keeps the `Z` lookups empty. -/
theorem C6_extend_merge_witness :
    lookup2 (extend mExtendBase cfgExtendMore).transition "A" "Z" =
      lookup2 mExtendBase.transition "A" "Z" ∧
    (extend mExtendBase cfgExtendMore).initial = mExtendBase.initial ∧
    (extend mExtendBase cfgExtendMore).state = mExtendBase.state ∧
    ∃ c', ("A", "B", c') ∈ cfgExtendMore.transitions ∧
      lookup2 (extend mExtendBase cfgExtendMore).transition "A" "B" =
        some (mkCheck c') := by
  have h := C6_extend_merge mExtendBase cfgExtendMore
  refine ⟨?_, ?_, h.1, ?_⟩
  · exact h.2.2.2.2.2.2.1 "A" "Z" (by intro c hc; simp [cfgExtendMore] at hc)
  · rw [h.2.2.1]
    rfl
  · exact (h.2.2.2.2.2.1 "A" "B" (CfgCheck.nam "h")
      (by simp [cfgExtendMore])).2.2

end LewisFSM
